import Mathlib

/-!
Shallow embedding of the asynchronous graph-retrieval polling loop of the
connected-papers client (`src/client.rs`), and of the JSON handling inside
`get_remaining_usages`.  The stream produced by `ConnectedPapers::get_graph_stream`
is modelled as a fuel-indexed recursive function that records, in order, every
network fetch (with the freshness flag used and the fetched result), every sleep
(with the requested duration in seconds) and every item yielded to the caller.
The graph payload is opaque to the loop (only cloned and tested for presence),
so it is a type parameter `G`; the `f64` progress field is likewise only carried
through, and is modelled by `Rat`.
-/

namespace ConnectedPapers

/-- Status enumeration of a graph response (`enum GraphResponseType` in `client.rs`). -/
inductive GraphResponseType where
  | BadId
  | Error
  | NotInDb
  | OldGraph
  | FreshGraph
  | InProgress
  | Queued
  | BadToken
  | BadRequest
  | OutOfRequests
  | Overloaded
  deriving DecidableEq, Repr

/-- One fetch result (`struct GraphResponse` in `client.rs`). -/
structure GraphResponse (G : Type) where
  status : GraphResponseType
  graph_json : Option G
  progress : Option Rat
  remaining_requests : Option Nat
  deriving DecidableEq, Repr

/-- The crate error type (`error.rs`), together with the `RequestFailed` variant that
`client.rs` constructs for non-200 responses. -/
inductive Error where
  | APIKeyNotFound (msg : String)
  | SemanticScholarRequestFailed (msg : String)
  | ReqwestError (msg : String)
  | InvalidParameter (msg : String)
  | RequestFailed (body : String)
  deriving DecidableEq, Repr

deriving instance DecidableEq for Except

/-- Observable events of one session of `get_graph_stream`, in order.  A `fetch`
event records one `self.get_graph(&id, flag)` call: the freshness flag passed,
whether it is the call at the top of the loop (`topLevel = true`) or one made
inside the overload sub-retry (`topLevel = false`), and the returned result.
A `sleep` event records a `tokio::time::sleep` with the requested seconds.
An `emit` event records one item yielded on the stream. -/
inductive Event (G : Type) where
  | fetch (fresh : Bool) (topLevel : Bool) (result : Except Error (GraphResponse G))
  | sleep (secs : Nat)
  | emit (item : Except Error (GraphResponse G))
  deriving DecidableEq, Repr

/-- The mutable local state of one running session of `get_graph_stream`:
`current_fresh_only` (initialised from the `fresh_only` argument, possibly set to
`true` by the `OldGraph` escalation branch) and `newest_graph` (the last graph
seen by a top-of-loop fetch, `none` before any has been seen). -/
structure LoopState (G : Type) where
  current_fresh_only : Bool
  newest_graph : Option G
  deriving DecidableEq, Repr

/-- Result of running a session with a given amount of fuel (number of top-level
loop iterations allowed): the recorded trace of events, whether the stream
returned of its own accord (`finished = true`) as opposed to running out of
fuel, and the index of the next unconsumed oracle entry (total number of
`get_graph` calls made so far). -/
structure RunResult (G : Type) where
  trace : List (Event G)
  finished : Bool
  nextK : Nat
  deriving DecidableEq, Repr

/-- The fixed overload backoff schedule, in seconds:
`[Duration::from_secs(5), .. 10, 20, 40]` in `client.rs`. -/
def overloadedDelays : List Nat := [5, 10, 20, 40]

/-- `newest_graph` update at the top of each loop iteration:
`if let Some(ref graph) = response.graph_json { newest_graph = Some(graph.clone()); }`. -/
def updateNewest {G : Type} (old : Option G) (response : GraphResponse G) : Option G :=
  match response.graph_json with
  | some g => some g
  | none => old

/-- The `matches!` test deciding terminality after the ordinary emission step. -/
def isTerminalStatus : GraphResponseType → Bool
  | .BadId => true
  | .Error => true
  | .NotInDb => true
  | .FreshGraph => true
  | .BadToken => true
  | .BadRequest => true
  | .OutOfRequests => true
  | _ => false

/-- The overload sub-retry (`for &delay in &[5s, 10s, 20s, 40s] { ... }`): sleep the
delay, re-fetch with the current freshness flag `fresh`; break at the first
non-`Overloaded` result keeping it, replace the working response and continue
otherwise, and abort on a fetch error.  The oracle `fetch` gives the result of
the `n`-th `get_graph` call of the session; `k` is the index of the next call.
Returns the recorded events, the next call index, and either the response the
loop finishes with or the fetch error encountered. -/
def overloadRetry {G : Type} (fetch : Nat → Except Error (GraphResponse G)) (fresh : Bool) :
    Nat → GraphResponse G → List Nat → List (Event G) × Nat × Except Error (GraphResponse G)
  | k, response, [] => ([], k, .ok response)
  | k, _response, d :: rest =>
    match fetch k with
    | .ok newResponse =>
      if newResponse.status ≠ GraphResponseType.Overloaded then
        ([.sleep d, .fetch fresh false (.ok newResponse)], k + 1, .ok newResponse)
      else
        let r := overloadRetry fetch fresh (k + 1) newResponse rest
        (.sleep d :: .fetch fresh false (.ok newResponse) :: r.1, r.2.1, r.2.2)
    | .error e => ([.sleep d, .fetch fresh false (.error e)], k + 1, .error e)

/-- Step 5 of an iteration: the overload sub-retry runs exactly when the fetched
status is `Overloaded`, otherwise the fetched response passes through unchanged.
`flag` is the session's current freshness flag and `k` the index of the
top-of-loop call that returned `response` (so the sub-retry consumes indices
from `k + 1`). -/
def postRetry {G : Type} (fetch : Nat → Except Error (GraphResponse G)) (flag : Bool)
    (k : Nat) (response : GraphResponse G) :
    List (Event G) × Nat × Except Error (GraphResponse G) :=
  if response.status = GraphResponseType.Overloaded then
    overloadRetry fetch flag (k + 1) response overloadedDelays
  else ([], k + 1, .ok response)

/-- One-to-one embedding of the `loop { ... }` body of
`ConnectedPapers::get_graph_stream` (`client.rs`), indexed by fuel.  Each
iteration: fetch with the current freshness flag; on a fetch error emit it and
stop; update `newest_graph` from the fetched response; take the `OldGraph`
branches (escalate-and-continue when `wait_until_complete && !fresh_only`,
emit-and-stop when merely `!fresh_only`); run the overload sub-retry when the
status is `Overloaded`; then emit the response with its graph field overwritten
by `newest_graph` and stop unless `wait_until_complete` holds and the status is
non-terminal, in which case sleep 1s and iterate. -/
def runLoop {G : Type} (fetch : Nat → Except Error (GraphResponse G))
    (fresh_only wait_until_complete : Bool) :
    Nat → Nat → LoopState G → RunResult G
  | 0, k, _ => ⟨[], false, k⟩
  | fuel + 1, k, st =>
    match fetch k with
    | .error e => ⟨[.fetch st.current_fresh_only true (.error e), .emit (.error e)], true, k + 1⟩
    | .ok response =>
      let fe : Event G := .fetch st.current_fresh_only true (.ok response)
      let newest := updateNewest st.newest_graph response
      if response.status = GraphResponseType.OldGraph ∧ wait_until_complete = true ∧
          fresh_only = false then
        let tail := runLoop fetch fresh_only wait_until_complete fuel (k + 1) ⟨true, newest⟩
        ⟨fe :: .emit (.ok { response with graph_json := newest }) :: .sleep 1 :: tail.trace,
          tail.finished, tail.nextK⟩
      else if response.status = GraphResponseType.OldGraph ∧ fresh_only = false then
        ⟨[fe, .emit (.ok { response with graph_json := newest })], true, k + 1⟩
      else
        let rr := postRetry fetch st.current_fresh_only k response
        match rr.2.2 with
        | .error e => ⟨fe :: rr.1 ++ [.emit (.error e)], true, rr.2.1⟩
        | .ok response2 =>
          let emitted : GraphResponse G := { response2 with graph_json := newest }
          if wait_until_complete = false ∨ isTerminalStatus response2.status = true then
            ⟨fe :: rr.1 ++ [.emit (.ok emitted)], true, rr.2.1⟩
          else
            let tail := runLoop fetch fresh_only wait_until_complete fuel rr.2.1
              ⟨st.current_fresh_only, newest⟩
            ⟨fe :: rr.1 ++ .emit (.ok emitted) :: .sleep 1 :: tail.trace,
              tail.finished, tail.nextK⟩

/-- A whole session of `get_graph_stream fetch fresh_only wait_until_complete`,
started in its initial state (`current_fresh_only = fresh_only`, no graph seen),
allowed `fuel` top-level loop iterations. -/
def get_graph_stream {G : Type} (fetch : Nat → Except Error (GraphResponse G))
    (fresh_only wait_until_complete : Bool) (fuel : Nat) : RunResult G :=
  runLoop fetch fresh_only wait_until_complete fuel 0 ⟨fresh_only, none⟩

/-- Items yielded on the stream, in order. -/
def emittedItems {G : Type} : List (Event G) → List (Except Error (GraphResponse G))
  | [] => []
  | .emit x :: es => x :: emittedItems es
  | .fetch _ _ _ :: es => emittedItems es
  | .sleep _ :: es => emittedItems es

/-- Number of items yielded on the stream. -/
def countEmit {G : Type} (es : List (Event G)) : Nat :=
  (emittedItems es).length

/-- Number of top-of-loop `get_graph` calls in a trace. -/
def countTopFetch {G : Type} : List (Event G) → Nat
  | [] => 0
  | .fetch _ true _ :: es => countTopFetch es + 1
  | .fetch _ false _ :: es => countTopFetch es
  | .emit _ :: es => countTopFetch es
  | .sleep _ :: es => countTopFetch es

/-- Number of `get_graph` calls (top-of-loop or sub-retry) in a trace. -/
def countFetch {G : Type} : List (Event G) → Nat
  | [] => 0
  | .fetch _ _ _ :: es => countFetch es + 1
  | .emit _ :: es => countFetch es
  | .sleep _ :: es => countFetch es

/-- Freshness flags of the `get_graph` calls in a trace, in order. -/
def fetchFlags {G : Type} : List (Event G) → List Bool
  | [] => []
  | .fetch fresh _ _ :: es => fresh :: fetchFlags es
  | .emit _ :: es => fetchFlags es
  | .sleep _ :: es => fetchFlags es

/-- Requested sleep durations in a trace, in order (seconds). -/
def sleepSecs {G : Type} : List (Event G) → List Nat
  | [] => []
  | .sleep s :: es => s :: sleepSecs es
  | .fetch _ _ _ :: es => sleepSecs es
  | .emit _ :: es => sleepSecs es

/-- A snapshot with status `OldGraph` and no payload. -/
def oldGraphSnap : GraphResponse Nat := ⟨.OldGraph, none, none, none⟩

/-- Oracle whose every fetch returns an `OldGraph` snapshot. -/
def fetchAlwaysOldGraph : Nat → Except Error (GraphResponse Nat) :=
  fun _ => .ok oldGraphSnap

/-- Oracle: first call `Overloaded`, second call (made inside the overload
sub-retry) `InProgress` carrying graph `7`, later calls `FreshGraph` without a
graph. -/
def fetchGraphOnlyInRetry : Nat → Except Error (GraphResponse Nat)
  | 0 => .ok ⟨.Overloaded, none, none, none⟩
  | 1 => .ok ⟨.InProgress, some 7, none, none⟩
  | _ => .ok ⟨.FreshGraph, none, none, none⟩

theorem emittedItems_append {G : Type} (xs ys : List (Event G)) :
    emittedItems (xs ++ ys) = emittedItems xs ++ emittedItems ys := by
  induction xs with
  | nil => rfl
  | cons e es ih => cases e <;> simp [emittedItems, ih]

theorem countTopFetch_append {G : Type} (xs ys : List (Event G)) :
    countTopFetch (xs ++ ys) = countTopFetch xs + countTopFetch ys := by
  induction xs with
  | nil => simp [countTopFetch]
  | cons e es ih =>
    cases e with
    | fetch fr top res => cases top <;> simp [countTopFetch, ih] <;> omega
    | sleep s => simp [countTopFetch, ih]
    | emit x => simp [countTopFetch, ih]

theorem countFetch_append {G : Type} (xs ys : List (Event G)) :
    countFetch (xs ++ ys) = countFetch xs + countFetch ys := by
  induction xs with
  | nil => simp [countFetch]
  | cons e es ih => cases e <;> simp [countFetch, ih] <;> omega

theorem fetchFlags_append {G : Type} (xs ys : List (Event G)) :
    fetchFlags (xs ++ ys) = fetchFlags xs ++ fetchFlags ys := by
  induction xs with
  | nil => rfl
  | cons e es ih => cases e <;> simp [fetchFlags, ih]

theorem sleepSecs_append {G : Type} (xs ys : List (Event G)) :
    sleepSecs (xs ++ ys) = sleepSecs xs ++ sleepSecs ys := by
  induction xs with
  | nil => rfl
  | cons e es ih => cases e <;> simp [sleepSecs, ih]

/-- C1: the claim is false on the code.  With `fresh_only = false`,
`wait_until_complete = true` and an oracle that keeps answering `OldGraph`, the
session escalates at the first `OldGraph` (second fetch carries the fresh
flag), but the second `OldGraph` — observed while the session is already in
fresh mode — is *not* treated as final: the escalation branch only tests the
original `fresh_only` argument, so the session emits and keeps polling (a third
top-level fetch happens, three items are emitted, and the run is still not
finished after three iterations), instead of stopping after the second
emission as the claim requires. -/
theorem C1_counterexample :
    (get_graph_stream fetchAlwaysOldGraph false true 3).finished = false ∧
    fetchFlags (get_graph_stream fetchAlwaysOldGraph false true 3).trace =
      [false, true, true] ∧
    countTopFetch (get_graph_stream fetchAlwaysOldGraph false true 3).trace = 3 ∧
    countEmit (get_graph_stream fetchAlwaysOldGraph false true 3).trace = 3 := by
  decide

/-- C2: the claim is false on the code.  The second fetch — made inside the
overload sub-retry — carries graph `7`, yet `last_known_graph` is not updated
from sub-retry responses: both emitted snapshots (the `InProgress` one and the
later `FreshGraph` one, which itself lacks a graph) are emitted with
`graph_json = none`, so the caller-visible graph regresses to absent even
though a fetched snapshot carried a graph. -/
theorem C2_counterexample :
    emittedItems (get_graph_stream fetchGraphOnlyInRetry false true 2).trace =
      [.ok ⟨.InProgress, none, none, none⟩, .ok ⟨.FreshGraph, none, none, none⟩] ∧
    Event.fetch false false (.ok ⟨.InProgress, some 7, none, none⟩) ∈
      (get_graph_stream fetchGraphOnlyInRetry false true 2).trace ∧
    (get_graph_stream fetchGraphOnlyInRetry false true 2).finished = true := by
  decide

theorem overloadRetry_emittedItems {G : Type} (fetch : Nat → Except Error (GraphResponse G))
    (fr : Bool) :
    ∀ (ds : List Nat) (k : Nat) (resp : GraphResponse G),
      emittedItems (overloadRetry fetch fr k resp ds).1 = [] := by
  intro ds
  induction ds with
  | nil => intro k resp; rfl
  | cons d rest ih =>
    intro k resp
    rw [overloadRetry]
    cases hf : fetch k with
    | ok newResp =>
      by_cases hov : newResp.status = GraphResponseType.Overloaded
      · simp [hov, emittedItems, ih]
      · simp [hov, emittedItems]
    | error e => simp [emittedItems]

theorem overloadRetry_countTopFetch {G : Type} (fetch : Nat → Except Error (GraphResponse G))
    (fr : Bool) :
    ∀ (ds : List Nat) (k : Nat) (resp : GraphResponse G),
      countTopFetch (overloadRetry fetch fr k resp ds).1 = 0 := by
  intro ds
  induction ds with
  | nil => intro k resp; rfl
  | cons d rest ih =>
    intro k resp
    rw [overloadRetry]
    cases hf : fetch k with
    | ok newResp =>
      by_cases hov : newResp.status = GraphResponseType.Overloaded
      · simp [hov, countTopFetch, ih]
      · simp [hov, countTopFetch]
    | error e => simp [countTopFetch]

theorem overloadRetry_flags {G : Type} (fetch : Nat → Except Error (GraphResponse G))
    (fr : Bool) :
    ∀ (ds : List Nat) (k : Nat) (resp : GraphResponse G),
      ∀ b ∈ fetchFlags (overloadRetry fetch fr k resp ds).1, b = fr := by
  intro ds
  induction ds with
  | nil => intro k resp b hb; simp [overloadRetry, fetchFlags] at hb
  | cons d rest ih =>
    intro k resp b hb
    rw [overloadRetry] at hb
    cases hf : fetch k with
    | ok newResp =>
      rw [hf] at hb
      by_cases hov : newResp.status = GraphResponseType.Overloaded
      · simp [hov, fetchFlags] at hb
        rcases hb with hb | hb
        · exact hb
        · exact ih _ _ b hb
      · simp [hov, fetchFlags] at hb
        exact hb
    | error e =>
      rw [hf] at hb
      simp [fetchFlags] at hb
      exact hb

/-- With positive fuel, every run's trace begins with the top-of-loop fetch
event, made with the current freshness flag and returning the oracle's next
entry. -/
theorem runLoop_head {G : Type} (fetch : Nat → Except Error (GraphResponse G))
    (a w : Bool) (fuel k : Nat) (st : LoopState G) (hfuel : 0 < fuel) :
    ∃ rest, (runLoop fetch a w fuel k st).trace =
      Event.fetch st.current_fresh_only true (fetch k) :: rest := by
  obtain ⟨fuel, rfl⟩ : ∃ n, fuel = n + 1 := ⟨fuel - 1, by omega⟩
  cases hf : fetch k with
  | error e =>
    refine ⟨[Event.emit (.error e)], ?_⟩
    simp [runLoop, hf]
  | ok resp =>
    simp only [runLoop, hf]
    split
    · exact ⟨_, rfl⟩
    · split
      · exact ⟨_, rfl⟩
      · cases hr : (postRetry fetch st.current_fresh_only k resp).2.2 with
        | error e => simp only [hr]; exact ⟨_, rfl⟩
        | ok r2 =>
          simp only [hr]
          split
          · exact ⟨_, rfl⟩
          · exact ⟨_, rfl⟩

theorem postRetry_flags {G : Type} (fetch : Nat → Except Error (GraphResponse G))
    (flag : Bool) (k : Nat) (resp : GraphResponse G) :
    ∀ c ∈ fetchFlags (postRetry fetch flag k resp).1, c = flag := by
  unfold postRetry
  split
  · exact overloadRetry_flags fetch flag overloadedDelays (k + 1) resp
  · intro c hc; simp [fetchFlags] at hc

theorem runLoop_flags_true {G : Type} (fetch : Nat → Except Error (GraphResponse G))
    (a w : Bool) :
    ∀ (fuel k : Nat) (st : LoopState G), st.current_fresh_only = true →
      ∀ b ∈ fetchFlags (runLoop fetch a w fuel k st).trace, b = true := by
  intro fuel
  induction fuel with
  | zero => intro k st h b hb; simp [runLoop, fetchFlags] at hb
  | succ fuel ih =>
    intro k st h b hb
    cases hf : fetch k with
    | error e =>
      simp [runLoop, hf, fetchFlags] at hb
      rw [hb, h]
    | ok resp =>
      simp only [runLoop, hf] at hb
      split at hb
      · simp only [fetchFlags, List.mem_cons] at hb
        rcases hb with rfl | hb
        · exact h
        · exact ih _ _ rfl b hb
      · split at hb
        · simp only [fetchFlags] at hb
          simp only [List.mem_cons] at hb
          rcases hb with rfl | hb
          · exact h
          · simp [fetchFlags] at hb
        · cases hr : (postRetry fetch st.current_fresh_only k resp).2.2 with
          | error e =>
            simp only [hr, fetchFlags] at hb
            rcases List.mem_cons.mp hb with rfl | hb
            · exact h
            · rw [List.append_eq, fetchFlags_append] at hb
              rcases List.mem_append.mp hb with hb | hb
              · rw [postRetry_flags fetch st.current_fresh_only k resp b hb, h]
              · simp [fetchFlags] at hb
          | ok r2 =>
            simp only [hr] at hb
            split at hb
            · simp only [fetchFlags] at hb
              rcases List.mem_cons.mp hb with rfl | hb
              · exact h
              · rw [List.append_eq, fetchFlags_append] at hb
                rcases List.mem_append.mp hb with hb | hb
                · rw [postRetry_flags fetch st.current_fresh_only k resp b hb, h]
                · simp [fetchFlags] at hb
            · simp only [fetchFlags] at hb
              rcases List.mem_cons.mp hb with rfl | hb
              · exact h
              · rw [List.append_eq, fetchFlags_append] at hb
                rcases List.mem_append.mp hb with hb | hb
                · rw [postRetry_flags fetch st.current_fresh_only k resp b hb, h]
                · simp only [fetchFlags] at hb
                  exact ih _ ⟨st.current_fresh_only, updateNewest st.newest_graph resp⟩ h b hb

theorem postRetry_emittedItems {G : Type} (fetch : Nat → Except Error (GraphResponse G))
    (flag : Bool) (k : Nat) (resp : GraphResponse G) :
    emittedItems (postRetry fetch flag k resp).1 = [] := by
  unfold postRetry
  split
  · exact overloadRetry_emittedItems fetch flag overloadedDelays (k + 1) resp
  · rfl

theorem postRetry_countTopFetch {G : Type} (fetch : Nat → Except Error (GraphResponse G))
    (flag : Bool) (k : Nat) (resp : GraphResponse G) :
    countTopFetch (postRetry fetch flag k resp).1 = 0 := by
  unfold postRetry
  split
  · exact overloadRetry_countTopFetch fetch flag overloadedDelays (k + 1) resp
  · rfl

/-- C7: with `wait_until_complete = false` the session stops after its first
emission whatever the emitted status is: any iteration emits exactly one item,
makes exactly one top-of-loop fetch, properly returns, and its last event is
the emission — in particular a first fetch returning `Queued` is emitted and
no second top-of-loop fetch happens (only overload sub-retry fetches can
precede the single emission). -/
theorem C7_single_shot {G : Type} (fetch : Nat → Except Error (GraphResponse G))
    (fresh_only : Bool) (fuel k : Nat) (st : LoopState G) :
    countEmit (runLoop fetch fresh_only false (fuel + 1) k st).trace = 1 ∧
    countTopFetch (runLoop fetch fresh_only false (fuel + 1) k st).trace = 1 ∧
    (runLoop fetch fresh_only false (fuel + 1) k st).finished = true ∧
    ∃ x, (runLoop fetch fresh_only false (fuel + 1) k st).trace.getLast? =
      some (Event.emit x) := by
  cases hf : fetch k with
  | error e =>
    refine ⟨?_, ?_, ?_, ⟨.error e, ?_⟩⟩ <;>
      simp [runLoop, hf, countEmit, emittedItems, countTopFetch]
  | ok resp =>
    simp only [runLoop, hf]
    split
    case isTrue h1 => exact absurd h1.2.1 (by simp)
    case isFalse h1 =>
      split
      case isTrue h2 =>
        refine ⟨?_, ?_, ?_,
          ⟨.ok { resp with graph_json := updateNewest st.newest_graph resp }, ?_⟩⟩
        · simp [countEmit, emittedItems]
        · simp [countTopFetch]
        · rfl
        · rfl
      case isFalse h2 =>
        cases hr : (postRetry fetch st.current_fresh_only k resp).2.2 with
        | error e =>
          simp only [hr]
          refine ⟨?_, ?_, ?_, ⟨.error e, ?_⟩⟩
          · simp [countEmit, emittedItems_append, emittedItems, postRetry_emittedItems]
          · simp [countTopFetch_append, countTopFetch, postRetry_countTopFetch]
          · trivial
          · exact List.getLast?_concat _
        | ok r2 =>
          simp only [hr]
          split
          case isFalse h3 => exact absurd (Or.inl (by simp)) h3
          case isTrue h3 =>
            refine ⟨?_, ?_, ?_,
              ⟨.ok { r2 with graph_json := updateNewest st.newest_graph resp }, ?_⟩⟩
            · simp [countEmit, emittedItems_append, emittedItems, postRetry_emittedItems]
            · simp [countTopFetch_append, countTopFetch, postRetry_countTopFetch]
            · trivial
            · exact List.getLast?_concat _

/-- C1 (amended): the fate of an `OldGraph` snapshot is decided by the original
`fresh_only` and `wait_until_complete` arguments only, not by the current
freshness flag.  (i) Not waiting and not started fresh: overwrite the graph
field with `last_known_graph`, emit, stop.  (ii) Waiting and not started
fresh: the escalation branch is taken — even when the session is already in
fresh mode, so a post-escalation `OldGraph` re-runs it (re-setting the
already-true flag) and continues polling instead of stopping.  (iii) Started
with `fresh_only = true`: the `OldGraph` branches are skipped and the snapshot
goes through the ordinary emission step — emit with the graph overwritten and
stop when not waiting, (iv) emit, sleep 1s and keep polling when waiting
(`OldGraph` is not in the terminal list). -/
theorem C1_oldGraph_policy {G : Type} (fetch : Nat → Except Error (GraphResponse G))
    (fresh_only wait : Bool) (fuel k : Nat) (st : LoopState G) (resp : GraphResponse G)
    (hf : fetch k = .ok resp) (hs : resp.status = .OldGraph) :
    (wait = false → fresh_only = false →
      runLoop fetch fresh_only wait (fuel + 1) k st =
        ⟨[.fetch st.current_fresh_only true (.ok resp),
          .emit (.ok { resp with graph_json := updateNewest st.newest_graph resp })],
         true, k + 1⟩) ∧
    (wait = true → fresh_only = false →
      runLoop fetch fresh_only wait (fuel + 1) k st =
        ⟨Event.fetch st.current_fresh_only true (.ok resp) ::
          Event.emit (.ok { resp with graph_json := updateNewest st.newest_graph resp }) ::
          Event.sleep 1 ::
          (runLoop fetch fresh_only wait fuel (k + 1)
            ⟨true, updateNewest st.newest_graph resp⟩).trace,
         (runLoop fetch fresh_only wait fuel (k + 1)
            ⟨true, updateNewest st.newest_graph resp⟩).finished,
         (runLoop fetch fresh_only wait fuel (k + 1)
            ⟨true, updateNewest st.newest_graph resp⟩).nextK⟩) ∧
    (fresh_only = true → wait = false →
      runLoop fetch fresh_only wait (fuel + 1) k st =
        ⟨[.fetch st.current_fresh_only true (.ok resp),
          .emit (.ok { resp with graph_json := updateNewest st.newest_graph resp })],
         true, k + 1⟩) ∧
    (fresh_only = true → wait = true →
      runLoop fetch fresh_only wait (fuel + 1) k st =
        ⟨Event.fetch st.current_fresh_only true (.ok resp) ::
          Event.emit (.ok { resp with graph_json := updateNewest st.newest_graph resp }) ::
          Event.sleep 1 ::
          (runLoop fetch fresh_only wait fuel (k + 1)
            ⟨st.current_fresh_only, updateNewest st.newest_graph resp⟩).trace,
         (runLoop fetch fresh_only wait fuel (k + 1)
            ⟨st.current_fresh_only, updateNewest st.newest_graph resp⟩).finished,
         (runLoop fetch fresh_only wait fuel (k + 1)
            ⟨st.current_fresh_only, updateNewest st.newest_graph resp⟩).nextK⟩) := by
  refine ⟨?_, ?_, ?_, ?_⟩
  · rintro rfl rfl
    simp [runLoop, hf, hs, postRetry, isTerminalStatus]
  · rintro rfl rfl
    simp [runLoop, hf, hs]
  · rintro rfl rfl
    simp [runLoop, hf, hs, postRetry, isTerminalStatus]
  · rintro rfl rfl
    simp [runLoop, hf, hs, postRetry, isTerminalStatus]

theorem C1_witness :
    runLoop fetchAlwaysOldGraph false false 1 0 (⟨false, none⟩ : LoopState Nat) =
      ⟨[.fetch false true (.ok oldGraphSnap), .emit (.ok oldGraphSnap)], true, 1⟩ :=
  (C1_oldGraph_policy fetchAlwaysOldGraph false false 0 0 ⟨false, none⟩ oldGraphSnap
    rfl rfl).1 rfl rfl

/-- C3: with `fresh_only = false` and `wait_until_complete = true`, an `OldGraph`
snapshot makes the session set the freshness flag to `true` in its state,
emit the snapshot with its graph field overwritten by `last_known_graph`,
sleep one 1-second polling interval and continue the loop; the immediately
following fetch is a top-of-loop call carrying the fresh flag, and every later
fetch of the session also carries it (the flag never reverts, so the
`false → true` escalation can happen at most once per session). -/
theorem C3_escalates_once {G : Type} (fetch : Nat → Except Error (GraphResponse G))
    (fuel k : Nat) (st : LoopState G) (resp : GraphResponse G)
    (hf : fetch k = .ok resp) (hs : resp.status = .OldGraph) :
    runLoop fetch false true (fuel + 1) k st =
      ⟨Event.fetch st.current_fresh_only true (.ok resp) ::
        Event.emit (.ok { resp with graph_json := updateNewest st.newest_graph resp }) ::
        Event.sleep 1 ::
        (runLoop fetch false true fuel (k + 1)
          ⟨true, updateNewest st.newest_graph resp⟩).trace,
       (runLoop fetch false true fuel (k + 1)
          ⟨true, updateNewest st.newest_graph resp⟩).finished,
       (runLoop fetch false true fuel (k + 1)
          ⟨true, updateNewest st.newest_graph resp⟩).nextK⟩ ∧
    (0 < fuel → ∃ rest,
      (runLoop fetch false true fuel (k + 1)
        ⟨true, updateNewest st.newest_graph resp⟩).trace =
          Event.fetch true true (fetch (k + 1)) :: rest) ∧
    ∀ b ∈ fetchFlags (runLoop fetch false true fuel (k + 1)
        ⟨true, updateNewest st.newest_graph resp⟩).trace, b = true := by
  refine ⟨by simp [runLoop, hf, hs], fun h => ?_,
    runLoop_flags_true fetch false true fuel (k + 1) _ rfl⟩
  exact runLoop_head fetch false true fuel (k + 1)
    ⟨true, updateNewest st.newest_graph resp⟩ h

theorem C3_witness :
    runLoop fetchAlwaysOldGraph false true 2 0 (⟨false, none⟩ : LoopState Nat) =
      ⟨[.fetch false true (.ok oldGraphSnap), .emit (.ok oldGraphSnap), .sleep 1,
        .fetch true true (.ok oldGraphSnap), .emit (.ok oldGraphSnap), .sleep 1],
       false, 2⟩ :=
  (C3_escalates_once fetchAlwaysOldGraph 1 0 ⟨false, none⟩ oldGraphSnap rfl rfl).1

/-- Full characterization of the overload sub-retry: there is a number `m` of
sub-retry fetches, between 1 and the schedule length, such that the retry
slept exactly the first `m` scheduled delays (each before its fetch), every
fetch before the last returned an `Overloaded` snapshot, the returned value is
exactly the outcome of the last fetch, and the retry only ended before
exhausting the schedule because that last fetch errored or returned a
non-`Overloaded` status. -/
theorem overloadRetry_spec {G : Type} (fetch : Nat → Except Error (GraphResponse G))
    (fr : Bool) :
    ∀ (ds : List Nat) (k : Nat) (resp : GraphResponse G), ∃ m : Nat,
      (overloadRetry fetch fr k resp ds).2.1 = k + m ∧
      m ≤ ds.length ∧
      (1 ≤ ds.length → 1 ≤ m) ∧
      sleepSecs (overloadRetry fetch fr k resp ds).1 = ds.take m ∧
      countFetch (overloadRetry fetch fr k resp ds).1 = m ∧
      (∀ i, i + 1 < m →
        ∃ ri, fetch (k + i) = .ok ri ∧ ri.status = GraphResponseType.Overloaded) ∧
      (1 ≤ m → (overloadRetry fetch fr k resp ds).2.2 = fetch (k + (m - 1))) ∧
      (m = 0 → (overloadRetry fetch fr k resp ds).2.2 = .ok resp) ∧
      (m < ds.length →
        ¬∃ r, fetch (k + (m - 1)) = .ok r ∧ r.status = GraphResponseType.Overloaded) := by
  intro ds
  induction ds with
  | nil =>
    intro k resp
    refine ⟨0, by simp [overloadRetry], by simp, fun h => absurd h (by simp at h), rfl, rfl,
      fun i hi => absurd hi (by omega), fun h => absurd h (by omega), fun _ => rfl,
      fun h => absurd h (by simp at h)⟩
  | cons d rest ih =>
    intro k resp
    cases hf : fetch k with
    | error e =>
      refine ⟨1, ?_, ?_, ?_, ?_, ?_, ?_, ?_, ?_, ?_⟩ <;>
        simp [overloadRetry, hf, sleepSecs, countFetch]
    | ok newResp =>
      by_cases hov : newResp.status = GraphResponseType.Overloaded
      · obtain ⟨m, h1, h2, h3, h4, h5, h6, h7, h8, h9⟩ := ih (k + 1) newResp
        refine ⟨m + 1, ?_, ?_, ?_, ?_, ?_, ?_, ?_, ?_, ?_⟩
        · simp [overloadRetry, hf, hov, h1]
          omega
        · simp
          omega
        · intro _
          omega
        · simp [overloadRetry, hf, hov, sleepSecs, h4]
        · simp [overloadRetry, hf, hov, countFetch, h5]
        · intro i hi
          match i with
          | 0 => exact ⟨newResp, hf, hov⟩
          | j + 1 =>
            have hj : j + 1 < m := by omega
            obtain ⟨ri, hri, hsi⟩ := h6 j hj
            refine ⟨ri, ?_, hsi⟩
            rw [show k + (j + 1) = k + 1 + j from by omega]
            exact hri
        · intro _
          have hres : (overloadRetry fetch fr k resp (d :: rest)).2.2 =
              (overloadRetry fetch fr (k + 1) newResp rest).2.2 := by
            simp [overloadRetry, hf, hov]
          rw [hres]
          by_cases hm : 1 ≤ m
          · rw [h7 hm, show k + 1 + (m - 1) = k + (m + 1 - 1) from by omega]
          · have hm0 : m = 0 := by omega
            rw [h8 hm0, show k + (m + 1 - 1) = k from by omega, hf]
        · omega
        · intro hlt
          have hm : 1 ≤ m := h3 (by simp at hlt; omega)
          have := h9 (by simp at hlt; omega)
          rw [show k + (m + 1 - 1) = k + 1 + (m - 1) from by omega]
          exact this
      · refine ⟨1, ?_, ?_, ?_, ?_, ?_, ?_, ?_, ?_, ?_⟩
        · simp [overloadRetry, hf, hov]
        · simp
        · intro _; omega
        · simp [overloadRetry, hf, hov, sleepSecs]
        · simp [overloadRetry, hf, hov, countFetch]
        · intro i hi; omega
        · intro _
          simp [overloadRetry, hf, hov, hf]
        · omega
        · intro _
          rintro ⟨r, hr, hst⟩
          rw [show k + (1 - 1) = k from by omega, hf] at hr
          cases hr
          exact hov hst

theorem fetchFlags_length {G : Type} (es : List (Event G)) :
    (fetchFlags es).length = countFetch es := by
  induction es with
  | nil => rfl
  | cons e es ih => cases e <;> simp [fetchFlags, countFetch, ih]

/-- C4: on an `Overloaded` top-of-loop snapshot the session runs the bounded
sub-retry over the fixed 5s, 10s, 20s, 40s schedule: some `1 ≤ m ≤ 4` fetches
are made, the `i`-th after sleeping the `i`-th scheduled delay and all with the
current freshness flag; every sub-fetch before the last returned `Overloaded`
(the retry stops at the first non-`Overloaded` result, and only stops before
exhausting the schedule on an error or a non-`Overloaded` status), and the
kept outcome is exactly the last fetch's.  A fetch error inside the retry ends
the whole session with that error as the final item; otherwise the kept
snapshot (with the graph field overwritten by `last_known_graph`) is the very
next item emitted — in particular, when all four retries still return
`Overloaded` the session proceeds to the ordinary emission step with the final
`Overloaded` snapshot (then stops if not waiting, sleeps 1s and polls again if
waiting) rather than failing. -/
theorem C4_overload_backoff {G : Type} (fetch : Nat → Except Error (GraphResponse G))
    (a w : Bool) (fuel k : Nat) (st : LoopState G) (resp : GraphResponse G)
    (hf : fetch k = .ok resp) (hs : resp.status = GraphResponseType.Overloaded) :
    (∃ m : Nat, 1 ≤ m ∧ m ≤ 4 ∧
      (overloadRetry fetch st.current_fresh_only (k + 1) resp overloadedDelays).2.1 =
        k + 1 + m ∧
      sleepSecs (overloadRetry fetch st.current_fresh_only (k + 1) resp
        overloadedDelays).1 = overloadedDelays.take m ∧
      fetchFlags (overloadRetry fetch st.current_fresh_only (k + 1) resp
        overloadedDelays).1 = List.replicate m st.current_fresh_only ∧
      (∀ i, i + 1 < m →
        ∃ ri, fetch (k + 1 + i) = .ok ri ∧ ri.status = GraphResponseType.Overloaded) ∧
      (overloadRetry fetch st.current_fresh_only (k + 1) resp overloadedDelays).2.2 =
        fetch (k + 1 + (m - 1)) ∧
      (m < 4 → ¬∃ r, fetch (k + 1 + (m - 1)) = .ok r ∧
        r.status = GraphResponseType.Overloaded)) ∧
    (∀ e, (overloadRetry fetch st.current_fresh_only (k + 1) resp
        overloadedDelays).2.2 = .error e →
      runLoop fetch a w (fuel + 1) k st =
        ⟨Event.fetch st.current_fresh_only true (.ok resp) ::
          (overloadRetry fetch st.current_fresh_only (k + 1) resp overloadedDelays).1 ++
          [.emit (.error e)], true,
         (overloadRetry fetch st.current_fresh_only (k + 1) resp overloadedDelays).2.1⟩) ∧
    (∀ r2, (overloadRetry fetch st.current_fresh_only (k + 1) resp
        overloadedDelays).2.2 = .ok r2 →
      ∃ rest, emittedItems (runLoop fetch a w (fuel + 1) k st).trace =
        .ok { r2 with graph_json := updateNewest st.newest_graph resp } :: rest) ∧
    (∀ r2, (overloadRetry fetch st.current_fresh_only (k + 1) resp
        overloadedDelays).2.2 = .ok r2 → r2.status = GraphResponseType.Overloaded →
      (w = false →
        runLoop fetch a w (fuel + 1) k st =
          ⟨Event.fetch st.current_fresh_only true (.ok resp) ::
            (overloadRetry fetch st.current_fresh_only (k + 1) resp overloadedDelays).1 ++
            [.emit (.ok { r2 with graph_json := updateNewest st.newest_graph resp })],
           true,
           (overloadRetry fetch st.current_fresh_only (k + 1) resp
             overloadedDelays).2.1⟩) ∧
      (w = true →
        runLoop fetch a w (fuel + 1) k st =
          ⟨Event.fetch st.current_fresh_only true (.ok resp) ::
            (overloadRetry fetch st.current_fresh_only (k + 1) resp overloadedDelays).1 ++
            Event.emit (.ok { r2 with graph_json := updateNewest st.newest_graph resp }) ::
            Event.sleep 1 ::
            (runLoop fetch a w fuel
              (overloadRetry fetch st.current_fresh_only (k + 1) resp
                overloadedDelays).2.1
              ⟨st.current_fresh_only, updateNewest st.newest_graph resp⟩).trace,
           (runLoop fetch a w fuel
             (overloadRetry fetch st.current_fresh_only (k + 1) resp
               overloadedDelays).2.1
             ⟨st.current_fresh_only, updateNewest st.newest_graph resp⟩).finished,
           (runLoop fetch a w fuel
             (overloadRetry fetch st.current_fresh_only (k + 1) resp
               overloadedDelays).2.1
             ⟨st.current_fresh_only, updateNewest st.newest_graph resp⟩).nextK⟩)) := by
  obtain ⟨m, h1, h2, h3, h4, h5, h6, h7, h8, h9⟩ :=
    overloadRetry_spec fetch st.current_fresh_only overloadedDelays (k + 1) resp
  have hm1 : 1 ≤ m := h3 (by simp [overloadedDelays])
  refine ⟨⟨m, hm1, h2, h1, h4, ?_, h6, h7 hm1, h9⟩, ?_, ?_, ?_⟩
  · exact List.eq_replicate_iff.mpr ⟨(fetchFlags_length _).trans h5,
      overloadRetry_flags fetch st.current_fresh_only overloadedDelays (k + 1) resp⟩
  · intro e he
    simp [runLoop, hf, hs, postRetry, he]
  · intro r2 h2r
    simp only [runLoop, hf]
    rw [if_neg (by simp [hs]), if_neg (by simp [hs])]
    simp only [postRetry, if_pos hs, h2r]
    split
    · refine ⟨[], ?_⟩
      simp [emittedItems, emittedItems_append, overloadRetry_emittedItems]
    · refine ⟨emittedItems (runLoop fetch a w fuel
        (overloadRetry fetch st.current_fresh_only (k + 1) resp overloadedDelays).2.1
        ⟨st.current_fresh_only, updateNewest st.newest_graph resp⟩).trace, ?_⟩
      simp [emittedItems, emittedItems_append, overloadRetry_emittedItems]
  · intro r2 h2r hst
    constructor
    · rintro rfl
      simp [runLoop, hf, hs, postRetry, h2r]
    · rintro rfl
      simp [runLoop, hf, hs, postRetry, h2r, hst, isTerminalStatus]

/-- Oracle returning a terminal `FreshGraph` snapshot on every call. -/
def fetchFreshGraphNow : Nat → Except Error (GraphResponse Nat) :=
  fun _ => .ok ⟨.FreshGraph, none, none, none⟩

/-- Oracle: first call `Overloaded`, every later call a fetch error. -/
def fetchErrorInRetry : Nat → Except Error (GraphResponse Nat)
  | 0 => .ok ⟨.Overloaded, none, none, none⟩
  | _ => .error (.ReqwestError "boom")

theorem C4_witness :
    runLoop fetchErrorInRetry false true 1 0 (⟨false, none⟩ : LoopState Nat) =
      ⟨[.fetch false true (.ok ⟨.Overloaded, none, none, none⟩), .sleep 5,
        .fetch false false (.error (.ReqwestError "boom")),
        .emit (.error (.ReqwestError "boom"))], true, 2⟩ :=
  (C4_overload_backoff fetchErrorInRetry false true 0 0 ⟨false, none⟩
    ⟨.Overloaded, none, none, none⟩ rfl rfl).2.1 (.ReqwestError "boom") rfl

/-- C5: if the response the iteration settles on (after the overload sub-retry,
if any) has one of the terminal statuses `BadId`, `Error`, `NotInDb`,
`FreshGraph`, `BadToken`, `BadRequest`, `OutOfRequests`, the session emits it
(graph field overwritten by `last_known_graph`) and stops immediately — the
emission is the last event, no further fetch happens, whatever
`wait_until_complete` is.  If instead the settled status is `InProgress`,
`Queued`, or a surviving `Overloaded`, and `wait_until_complete = true`, the
session emits, sleeps the 1-second polling interval and fetches again. -/
theorem C5_terminal_statuses {G : Type} (fetch : Nat → Except Error (GraphResponse G))
    (a w : Bool) (fuel k : Nat) (st : LoopState G) (resp r2 : GraphResponse G)
    (hf : fetch k = .ok resp)
    (h2 : (postRetry fetch st.current_fresh_only k resp).2.2 = .ok r2) :
    (isTerminalStatus r2.status = true →
      runLoop fetch a w (fuel + 1) k st =
        ⟨Event.fetch st.current_fresh_only true (.ok resp) ::
          (postRetry fetch st.current_fresh_only k resp).1 ++
          [.emit (.ok { r2 with graph_json := updateNewest st.newest_graph resp })],
         true, (postRetry fetch st.current_fresh_only k resp).2.1⟩) ∧
    (w = true →
      (r2.status = GraphResponseType.InProgress ∨ r2.status = GraphResponseType.Queued ∨
        r2.status = GraphResponseType.Overloaded) →
      runLoop fetch a w (fuel + 1) k st =
        ⟨Event.fetch st.current_fresh_only true (.ok resp) ::
          (postRetry fetch st.current_fresh_only k resp).1 ++
          Event.emit (.ok { r2 with graph_json := updateNewest st.newest_graph resp }) ::
          Event.sleep 1 ::
          (runLoop fetch a w fuel (postRetry fetch st.current_fresh_only k resp).2.1
            ⟨st.current_fresh_only, updateNewest st.newest_graph resp⟩).trace,
         (runLoop fetch a w fuel (postRetry fetch st.current_fresh_only k resp).2.1
           ⟨st.current_fresh_only, updateNewest st.newest_graph resp⟩).finished,
         (runLoop fetch a w fuel (postRetry fetch st.current_fresh_only k resp).2.1
           ⟨st.current_fresh_only, updateNewest st.newest_graph resp⟩).nextK⟩ ∧
      (0 < fuel → ∃ rest,
        (runLoop fetch a w fuel (postRetry fetch st.current_fresh_only k resp).2.1
          ⟨st.current_fresh_only, updateNewest st.newest_graph resp⟩).trace =
            Event.fetch st.current_fresh_only true
              (fetch (postRetry fetch st.current_fresh_only k resp).2.1) :: rest)) := by
  constructor
  · intro ht
    have hns : ¬resp.status = GraphResponseType.OldGraph := by
      intro h
      have hpr : (postRetry fetch st.current_fresh_only k resp).2.2 = .ok resp := by
        simp [postRetry, h]
      rw [hpr] at h2
      cases h2
      rw [h] at ht
      simp [isTerminalStatus] at ht
    simp only [runLoop, hf]
    rw [if_neg (by simp [hns]), if_neg (by simp [hns])]
    simp only [h2]
    rw [if_pos (Or.inr ht)]
  · intro hw hset
    have hns : ¬resp.status = GraphResponseType.OldGraph := by
      intro h
      have hpr : (postRetry fetch st.current_fresh_only k resp).2.2 = .ok resp := by
        simp [postRetry, h]
      rw [hpr] at h2
      cases h2
      rcases hset with h3 | h3 | h3 <;> rw [h] at h3 <;> cases h3
    constructor
    · simp only [runLoop, hf]
      rw [if_neg (by simp [hns]), if_neg (by simp [hns])]
      simp only [h2]
      rw [if_neg ?_]
      rintro (h3 | h3)
      · rw [hw] at h3
        cases h3
      · rcases hset with h4 | h4 | h4 <;> rw [h4] at h3 <;> simp [isTerminalStatus] at h3
    · intro hfuel
      exact runLoop_head fetch a w fuel (postRetry fetch st.current_fresh_only k resp).2.1
        ⟨st.current_fresh_only, updateNewest st.newest_graph resp⟩ hfuel

theorem C5_witness :
    runLoop fetchFreshGraphNow false true 1 0 (⟨false, none⟩ : LoopState Nat) =
      ⟨[.fetch false true (.ok ⟨.FreshGraph, none, none, none⟩),
        .emit (.ok ⟨.FreshGraph, none, none, none⟩)], true, 1⟩ :=
  (C5_terminal_statuses fetchFreshGraphNow false true 0 0 ⟨false, none⟩
    ⟨.FreshGraph, none, none, none⟩ ⟨.FreshGraph, none, none, none⟩ rfl rfl).1 rfl

/-- Errors among the emitted items of a trace, in order. -/
def errorItems {G : Type} (tr : List (Event G)) : List Error :=
  (emittedItems tr).filterMap (fun x => match x with | .error e => some e | .ok _ => none)

theorem errorItems_append {G : Type} (xs ys : List (Event G)) :
    errorItems (xs ++ ys) = errorItems xs ++ errorItems ys := by
  simp [errorItems, emittedItems_append]

theorem mem_emittedItems {G : Type} (x : Except Error (GraphResponse G)) :
    ∀ tr : List (Event G), Event.emit x ∈ tr → x ∈ emittedItems tr := by
  intro tr
  induction tr with
  | nil => intro h; cases h
  | cons e es ih =>
    intro h
    rcases List.mem_cons.mp h with h1 | h1
    · rw [← h1]
      simp [emittedItems]
    · cases e <;> simp [emittedItems] <;> try exact ih h1
      exact Or.inr (ih h1)

theorem getLast?_cons_cons_cons {α : Type} (a b c : α) (l : List α) (h : l ≠ []) :
    (a :: b :: c :: l).getLast? = l.getLast? := by
  rw [show a :: b :: c :: l = [a, b, c] ++ l from rfl, List.getLast?_append_of_ne_nil _ h]

theorem getLast?_cons_append_cons_cons {α : Type} (a : α) (l1 : List α) (b c : α)
    (l2 : List α) (h : l2 ≠ []) :
    (a :: (l1 ++ b :: c :: l2)).getLast? = l2.getLast? := by
  rw [show b :: c :: l2 = [b, c] ++ l2 from rfl, ← List.append_assoc, ← List.cons_append,
    List.getLast?_append_of_ne_nil _ h]

/-- An emitted fetch error is always the last event of the trace, and the
session has properly returned. -/
theorem runLoop_error_final {G : Type} (fetch : Nat → Except Error (GraphResponse G))
    (a w : Bool) :
    ∀ (fuel k : Nat) (st : LoopState G) (e : Error),
      Event.emit (.error e) ∈ (runLoop fetch a w fuel k st).trace →
      (runLoop fetch a w fuel k st).trace.getLast? = some (.emit (.error e)) ∧
      (runLoop fetch a w fuel k st).finished = true := by
  intro fuel
  induction fuel with
  | zero => intro k st e h; simp [runLoop] at h
  | succ fuel ih =>
    intro k st e h
    cases hf : fetch k with
    | error e0 =>
      simp only [runLoop, hf] at h ⊢
      rcases List.mem_cons.mp h with h1 | h1
      · cases h1
      · rcases List.mem_cons.mp h1 with h2 | h2
        · cases h2
          exact ⟨rfl, trivial⟩
        · simp at h2
    | ok resp =>
      simp only [runLoop, hf] at h ⊢
      by_cases hc1 : resp.status = GraphResponseType.OldGraph ∧ w = true ∧ a = false
      · rw [if_pos hc1] at h ⊢
        rcases List.mem_cons.mp h with h1 | h1
        · cases h1
        rcases List.mem_cons.mp h1 with h2 | h2
        · cases h2
        rcases List.mem_cons.mp h2 with h3 | h3
        · cases h3
        obtain ⟨hl, hfin⟩ := ih (k + 1) ⟨true, updateNewest st.newest_graph resp⟩ e h3
        have hne := List.ne_nil_of_mem h3
        refine ⟨?_, hfin⟩
        exact (getLast?_cons_cons_cons _ _ _ _ hne).trans hl
      · rw [if_neg hc1] at h ⊢
        by_cases hc2 : resp.status = GraphResponseType.OldGraph ∧ a = false
        · rw [if_pos hc2] at h ⊢
          rcases List.mem_cons.mp h with h1 | h1
          · cases h1
          rcases List.mem_cons.mp h1 with h2 | h2
          · cases h2
          simp at h1 h2
        · rw [if_neg hc2] at h ⊢
          cases hr : (postRetry fetch st.current_fresh_only k resp).2.2 with
          | error e0 =>
            simp only [hr] at h ⊢
            rcases List.mem_cons.mp h with h1 | h1
            · cases h1
            rcases List.mem_append.mp h1 with h2 | h2
            · have := mem_emittedItems _ _ h2
              rw [postRetry_emittedItems] at this
              cases this
            rcases List.mem_cons.mp h2 with h3 | h3
            · cases h3
              exact ⟨List.getLast?_concat _, trivial⟩
            · cases h3
          | ok r2 =>
            simp only [hr] at h ⊢
            split at h
            next hc3 =>
              rw [if_pos hc3]
              rcases List.mem_cons.mp h with h1 | h1
              · cases h1
              rcases List.mem_append.mp h1 with h2 | h2
              · have := mem_emittedItems _ _ h2
                rw [postRetry_emittedItems] at this
                cases this
              rcases List.mem_cons.mp h2 with h3 | h3
              · cases h3
              · cases h3
            next hc3 =>
              rw [if_neg hc3]
              rcases List.mem_cons.mp h with h1 | h1
              · cases h1
              rcases List.mem_append.mp h1 with h2 | h2
              · have := mem_emittedItems _ _ h2
                rw [postRetry_emittedItems] at this
                cases this
              rcases List.mem_cons.mp h2 with h3 | h3
              · cases h3
              rcases List.mem_cons.mp h3 with h4 | h4
              · cases h4
              obtain ⟨hl, hfin⟩ := ih (postRetry fetch st.current_fresh_only k resp).2.1
                ⟨st.current_fresh_only, updateNewest st.newest_graph resp⟩ e h4
              have hne := List.ne_nil_of_mem h4
              refine ⟨?_, hfin⟩
              exact (getLast?_cons_append_cons_cons _ _ _ _ _ hne).trans hl

/-- At most one error is ever emitted in a session. -/
theorem runLoop_error_once {G : Type} (fetch : Nat → Except Error (GraphResponse G))
    (a w : Bool) :
    ∀ (fuel k : Nat) (st : LoopState G),
      (errorItems (runLoop fetch a w fuel k st).trace).length ≤ 1 := by
  intro fuel
  induction fuel with
  | zero => intro k st; simp [runLoop, errorItems, emittedItems]
  | succ fuel ih =>
    intro k st
    cases hf : fetch k with
    | error e => simp [runLoop, hf, errorItems, emittedItems]
    | ok resp =>
      simp only [runLoop, hf]
      split
      · simpa [errorItems, emittedItems] using
          ih (k + 1) ⟨true, updateNewest st.newest_graph resp⟩
      · split
        · simp [errorItems, emittedItems]
        · cases hr : (postRetry fetch st.current_fresh_only k resp).2.2 with
          | error e =>
            simp only [hr]
            simp [errorItems, emittedItems, emittedItems_append, postRetry_emittedItems]
          | ok r2 =>
            simp only [hr]
            split
            · simp [errorItems, emittedItems, emittedItems_append, postRetry_emittedItems]
            · simpa [errorItems, emittedItems, emittedItems_append, postRetry_emittedItems]
                using ih (postRetry fetch st.current_fresh_only k resp).2.1
                  ⟨st.current_fresh_only, updateNewest st.newest_graph resp⟩

/-- Oracle failing on every call. -/
def fetchAlwaysError : Nat → Except Error (GraphResponse Nat) :=
  fun _ => .error (.ReqwestError "down")

/-- C6: a fetch error at any point of a session — the top-of-loop call of any
iteration, a call inside the overload sub-retry, or a call during continued
polling — is emitted exactly once, as the final item of the sequence: every
emitted error is the last event of the trace (so no later fetch, sleep, or
emission occurs), the session properly returns, at most one error is ever
emitted, and a top-of-loop fetch error in particular ends the iteration with
just the error emission and no retry of the failed call. -/
theorem C6_error_terminates {G : Type} (fetch : Nat → Except Error (GraphResponse G))
    (a w : Bool) :
    (∀ (fuel k : Nat) (st : LoopState G) (e : Error),
      Event.emit (.error e) ∈ (runLoop fetch a w fuel k st).trace →
      (runLoop fetch a w fuel k st).trace.getLast? = some (.emit (.error e)) ∧
      (runLoop fetch a w fuel k st).finished = true) ∧
    (∀ (fuel k : Nat) (st : LoopState G),
      (errorItems (runLoop fetch a w fuel k st).trace).length ≤ 1) ∧
    (∀ (fuel k : Nat) (st : LoopState G) (e : Error), fetch k = .error e →
      runLoop fetch a w (fuel + 1) k st =
        ⟨[.fetch st.current_fresh_only true (.error e), .emit (.error e)], true, k + 1⟩) := by
  refine ⟨runLoop_error_final fetch a w, runLoop_error_once fetch a w, ?_⟩
  intro fuel k st e hf
  simp [runLoop, hf]

theorem C6_witness :
    runLoop fetchAlwaysError false true 1 0 (⟨false, none⟩ : LoopState Nat) =
      ⟨[.fetch false true (.error (.ReqwestError "down")),
        .emit (.error (.ReqwestError "down"))], true, 1⟩ :=
  (C6_error_terminates fetchAlwaysError false true).2.2 0 0 ⟨false, none⟩ _ rfl

/-- Does this emitted item carry a graph (errors are ignored)? -/
def okGraphPresent {G : Type} : Except Error (GraphResponse G) → Bool
  | .ok r => r.graph_json.isSome
  | .error _ => true

/-- Every emitted `Ok` item of the list carries a graph. -/
def allOksCarryGraph {G : Type} (items : List (Except Error (GraphResponse G))) : Bool :=
  items.all okGraphPresent

/-- Once some emitted `Ok` item carries a graph, every later `Ok` item does too
(the caller-visible graph never regresses to absent). -/
def graphCarryMonotone {G : Type} : List (Except Error (GraphResponse G)) → Bool
  | [] => true
  | .ok r :: rest => cond r.graph_json.isSome (allOksCarryGraph rest) (graphCarryMonotone rest)
  | .error _ :: rest => graphCarryMonotone rest

theorem updateNewest_isSome {G : Type} (old : Option G) (resp : GraphResponse G)
    (h : old.isSome = true) : (updateNewest old resp).isSome = true := by
  cases hg : resp.graph_json <;> simp [updateNewest, hg, h]

/-- Once `last_known_graph` is populated, every further emitted `Ok` item carries
a graph. -/
theorem runLoop_graph_kept {G : Type} (fetch : Nat → Except Error (GraphResponse G))
    (a w : Bool) :
    ∀ (fuel k : Nat) (st : LoopState G), st.newest_graph.isSome = true →
      allOksCarryGraph (emittedItems (runLoop fetch a w fuel k st).trace) = true := by
  intro fuel
  induction fuel with
  | zero => intro k st h; simp [runLoop, emittedItems, allOksCarryGraph]
  | succ fuel ih =>
    intro k st h
    have hup := updateNewest_isSome st.newest_graph
    cases hf : fetch k with
    | error e => simp [runLoop, hf, emittedItems, allOksCarryGraph, okGraphPresent]
    | ok resp =>
      simp only [runLoop, hf]
      split
      · have := ih (k + 1) ⟨true, updateNewest st.newest_graph resp⟩ (hup resp h)
        simp only [emittedItems, allOksCarryGraph, List.all_cons] at this ⊢
        simp [this, okGraphPresent, hup resp h]
      · split
        · simp [emittedItems, allOksCarryGraph, okGraphPresent, hup resp h]
        · cases hr : (postRetry fetch st.current_fresh_only k resp).2.2 with
          | error e =>
            simp only [hr]
            simp [emittedItems, emittedItems_append, postRetry_emittedItems,
              allOksCarryGraph, okGraphPresent]
          | ok r2 =>
            simp only [hr]
            split
            · simp [emittedItems, emittedItems_append, postRetry_emittedItems,
                allOksCarryGraph, okGraphPresent, hup resp h]
            · have hall := ih (postRetry fetch st.current_fresh_only k resp).2.1
                ⟨st.current_fresh_only, updateNewest st.newest_graph resp⟩ (hup resp h)
              simp only [allOksCarryGraph, List.all_eq_true] at hall ⊢
              intro x hx
              simp only [emittedItems, List.append_eq, emittedItems_append,
                postRetry_emittedItems, List.nil_append] at hx
              rcases List.mem_cons.mp hx with rfl | hx2
              · simp [okGraphPresent, hup resp h]
              · exact hall x hx2

/-- C2 (amended): `last_known_graph` is updated only from top-of-loop fetched
snapshots (a graph seen only by an overload sub-retry response is dropped, see
the counterexample), and it is what every emitted snapshot carries in its graph
field; consequently the emitted sequence never regresses: once an emitted
snapshot carries a graph, every later emitted `Ok` snapshot carries one, and
once the session state holds a graph every emitted `Ok` item carries one. -/
theorem C2_graph_carry {G : Type} (fetch : Nat → Except Error (GraphResponse G))
    (a w : Bool) (fuel k : Nat) (st : LoopState G) :
    graphCarryMonotone (emittedItems (runLoop fetch a w fuel k st).trace) = true ∧
    (st.newest_graph.isSome = true →
      allOksCarryGraph (emittedItems (runLoop fetch a w fuel k st).trace) = true) := by
  refine ⟨?_, fun h => runLoop_graph_kept fetch a w fuel k st h⟩
  induction fuel generalizing k st with
  | zero => simp [runLoop, emittedItems, graphCarryMonotone]
  | succ fuel ih =>
    cases hf : fetch k with
    | error e => simp [runLoop, hf, emittedItems, graphCarryMonotone]
    | ok resp =>
      simp only [runLoop, hf]
      split
      · cases hnew : (updateNewest st.newest_graph resp).isSome with
        | true =>
          have := runLoop_graph_kept fetch a w fuel (k + 1)
            ⟨true, updateNewest st.newest_graph resp⟩ hnew
          simp [emittedItems, graphCarryMonotone, hnew, this]
        | false =>
          have := ih (k + 1) ⟨true, updateNewest st.newest_graph resp⟩
          simp [emittedItems, graphCarryMonotone, hnew, this]
      · split
        · cases hnew : (updateNewest st.newest_graph resp).isSome <;>
            simp [emittedItems, graphCarryMonotone, allOksCarryGraph, hnew]
        · cases hr : (postRetry fetch st.current_fresh_only k resp).2.2 with
          | error e =>
            simp only [hr]
            simp [emittedItems, emittedItems_append, postRetry_emittedItems,
              graphCarryMonotone]
          | ok r2 =>
            simp only [hr]
            split
            · cases hnew : (updateNewest st.newest_graph resp).isSome <;>
                simp [emittedItems, emittedItems_append, postRetry_emittedItems,
                  graphCarryMonotone, allOksCarryGraph, hnew]
            · cases hnew : (updateNewest st.newest_graph resp).isSome with
              | true =>
                have := runLoop_graph_kept fetch a w fuel
                  (postRetry fetch st.current_fresh_only k resp).2.1
                  ⟨st.current_fresh_only, updateNewest st.newest_graph resp⟩ hnew
                simp [emittedItems, emittedItems_append, postRetry_emittedItems,
                  graphCarryMonotone, hnew, this]
              | false =>
                have := ih (postRetry fetch st.current_fresh_only k resp).2.1
                  ⟨st.current_fresh_only, updateNewest st.newest_graph resp⟩
                simp [emittedItems, emittedItems_append, postRetry_emittedItems,
                  graphCarryMonotone, hnew, this]

theorem C2_witness :
    graphCarryMonotone (emittedItems
      (runLoop fetchAlwaysOldGraph false false 1 0
        (⟨false, some 5⟩ : LoopState Nat)).trace) = true ∧
    allOksCarryGraph (emittedItems
      (runLoop fetchAlwaysOldGraph false false 1 0
        (⟨false, some 5⟩ : LoopState Nat)).trace) = true :=
  ⟨(C2_graph_carry fetchAlwaysOldGraph false false 1 0 ⟨false, some 5⟩).1,
   (C2_graph_carry fetchAlwaysOldGraph false false 1 0 ⟨false, some 5⟩).2 rfl⟩

/-- State of the trace audit for C8: the graph that `newest_graph` holds at this
point (updated only by top-of-loop fetch events), and the most recently fetched
response, if the last fetch succeeded. -/
def c8step {G : Type} (s : Option G × Option (GraphResponse G)) :
    Event G → Option G × Option (GraphResponse G)
  | .fetch _ true (.ok r) => (updateNewest s.1 r, some r)
  | .fetch _ true (.error _) => (s.1, none)
  | .fetch _ false (.ok r) => (s.1, some r)
  | .fetch _ false (.error _) => (s.1, none)
  | .sleep _ => s
  | .emit _ => s

/-- Local audit of one event: an emitted `Ok` item must carry exactly the
tracked `newest_graph` in `graph_json` and copy `status`, `progress` and
`remaining_requests` verbatim from the most recently fetched response. -/
def c8ok {G : Type} [DecidableEq G] (s : Option G × Option (GraphResponse G)) :
    Event G → Bool
  | .emit (.ok r) =>
    match s.2 with
    | some r0 => decide (r.graph_json = s.1) && decide (r.status = r0.status) &&
        decide (r.progress = r0.progress) &&
        decide (r.remaining_requests = r0.remaining_requests)
    | none => false
  | .emit (.error _) => true
  | .fetch _ _ _ => true
  | .sleep _ => true

/-- The audit holds along a whole trace. -/
def c8all {G : Type} [DecidableEq G] :
    (Option G × Option (GraphResponse G)) → List (Event G) → Bool
  | _, [] => true
  | s, e :: es => c8ok s e && c8all (c8step s e) es

theorem c8all_append {G : Type} [DecidableEq G] (xs ys : List (Event G))
    (s : Option G × Option (GraphResponse G)) :
    c8all s (xs ++ ys) = (c8all s xs && c8all (xs.foldl c8step s) ys) := by
  induction xs generalizing s with
  | nil => simp [c8all]
  | cons e es ih => simp [c8all, ih, Bool.and_assoc]

theorem c8all_of_no_emit {G : Type} [DecidableEq G] :
    ∀ (tr : List (Event G)) (s : Option G × Option (GraphResponse G)),
      emittedItems tr = [] → c8all s tr = true := by
  intro tr
  induction tr with
  | nil => intro s _; rfl
  | cons e es ih =>
    intro s h
    cases e with
    | fetch fr top res =>
      simp only [emittedItems] at h
      simp only [c8all, c8ok, Bool.true_and]
      exact ih _ h
    | sleep n =>
      simp only [emittedItems] at h
      simp only [c8all, c8ok, Bool.true_and]
      exact ih _ h
    | emit x => simp [emittedItems] at h

theorem overloadRetry_foldl {G : Type} (fetch : Nat → Except Error (GraphResponse G))
    (fr : Bool) :
    ∀ (ds : List Nat) (k : Nat) (resp : GraphResponse G)
      (s : Option G × Option (GraphResponse G)),
      ((overloadRetry fetch fr k resp ds).1.foldl c8step s).1 = s.1 ∧
      (ds ≠ [] → ∀ r2, (overloadRetry fetch fr k resp ds).2.2 = .ok r2 →
        ((overloadRetry fetch fr k resp ds).1.foldl c8step s).2 = some r2) := by
  intro ds
  induction ds with
  | nil => intro k resp s; exact ⟨rfl, fun h => absurd rfl h⟩
  | cons d rest ih =>
    intro k resp s
    cases hf : fetch k with
    | error e =>
      constructor
      · simp [overloadRetry, hf, c8step]
      · intro _ r2 h2
        simp [overloadRetry, hf] at h2
    | ok newResp =>
      by_cases hov : newResp.status = GraphResponseType.Overloaded
      · rcases rest with _ | ⟨d2, rest2⟩
        · constructor
          · simp [overloadRetry, hf, hov, c8step]
          · intro _ r2 h2
            simp only [overloadRetry, hf] at h2
            rw [if_neg (by simp [hov])] at h2
            simp only [overloadRetry] at h2
            cases h2
            simp [overloadRetry, hf, hov, c8step]
        · have := ih (k + 1) newResp (s.1, some newResp)
          constructor
          · simp only [overloadRetry, hf]
            rw [if_neg (by simp [hov])]
            simp only [List.foldl_cons]
            rw [show c8step (c8step s (Event.sleep d))
                (Event.fetch fr false (Except.ok newResp)) = (s.1, some newResp) from rfl]
            exact this.1
          · intro _ r2 h2
            simp only [overloadRetry, hf] at h2
            rw [if_neg (by simp [hov])] at h2
            simp only [overloadRetry, hf] at h2 ⊢
            rw [if_neg (by simp [hov])]
            simp only [List.foldl_cons]
            rw [show c8step (c8step s (Event.sleep d))
                (Event.fetch fr false (Except.ok newResp)) = (s.1, some newResp) from rfl]
            exact this.2 (by simp) r2 h2
      · constructor
        · simp [overloadRetry, hf, hov, c8step]
        · intro _ r2 h2
          simp only [overloadRetry, hf] at h2
          rw [if_pos (by simp [hov])] at h2
          cases h2
          simp [overloadRetry, hf, hov, c8step]

theorem postRetry_foldl {G : Type} (fetch : Nat → Except Error (GraphResponse G))
    (flag : Bool) (k : Nat) (resp r2 : GraphResponse G)
    (s : Option G × Option (GraphResponse G))
    (h : (postRetry fetch flag k resp).2.2 = .ok r2) :
    ((postRetry fetch flag k resp).1.foldl c8step s).1 = s.1 ∧
    (s.2 = some resp → ((postRetry fetch flag k resp).1.foldl c8step s).2 = some r2) := by
  by_cases hov : resp.status = GraphResponseType.Overloaded
  · simp only [postRetry, if_pos hov] at h ⊢
    obtain ⟨h1, h2⟩ := overloadRetry_foldl fetch flag overloadedDelays (k + 1) resp s
    exact ⟨h1, fun _ => h2 (by simp [overloadedDelays]) r2 h⟩
  · simp only [postRetry, if_neg hov] at h ⊢
    cases h
    exact ⟨rfl, fun hs => hs⟩

/-- C8: every `Ok` item emitted anywhere in a session carries in `graph_json`
exactly the tracked `newest_graph` — the most recent graph carried by a
top-of-loop fetch result, the session-start value (`none` for a fresh session)
if none has been seen, with sub-retry fetch results never updating it — while
`status`, `progress` and `remaining_requests` are copied verbatim from the most
recently fetched response.  Stated as a trace audit (`c8all`) that holds from
any reachable state. -/
theorem C8_emitted_fields {G : Type} [DecidableEq G]
    (fetch : Nat → Except Error (GraphResponse G)) (a w : Bool) :
    ∀ (fuel k : Nat) (st : LoopState G) (last0 : Option (GraphResponse G)),
      c8all (st.newest_graph, last0) (runLoop fetch a w fuel k st).trace = true := by
  intro fuel
  induction fuel with
  | zero => intro k st last0; simp [runLoop, c8all]
  | succ fuel ih =>
    intro k st last0
    cases hf : fetch k with
    | error e => simp [runLoop, hf, c8all, c8ok, c8step]
    | ok resp =>
      simp only [runLoop, hf]
      split
      · have htail := ih (k + 1) ⟨true, updateNewest st.newest_graph resp⟩ (some resp)
        simp [c8all, c8ok, c8step, htail]
      · split
        · simp [c8all, c8ok, c8step]
        · cases hr : (postRetry fetch st.current_fresh_only k resp).2.2 with
          | error e =>
            simp only [hr]
            simp only [c8all, c8ok, c8step, Bool.true_and]
            rw [List.append_eq, c8all_append,
              c8all_of_no_emit _ _ (postRetry_emittedItems fetch st.current_fresh_only k resp)]
            simp [c8all, c8ok]
          | ok r2 =>
            simp only [hr]
            obtain ⟨hfst, hsnd⟩ := postRetry_foldl fetch st.current_fresh_only k resp r2
              (updateNewest st.newest_graph resp, some resp) hr
            have hpair : ((postRetry fetch st.current_fresh_only k resp).1.foldl c8step
                ((updateNewest st.newest_graph resp : Option G), some resp)) =
                (updateNewest st.newest_graph resp, some r2) := Prod.ext hfst (hsnd rfl)
            split
            · simp only [c8all, c8ok, c8step, Bool.true_and]
              rw [List.append_eq, c8all_append,
                c8all_of_no_emit _ _
                  (postRetry_emittedItems fetch st.current_fresh_only k resp),
                hpair]
              simp [c8all, c8ok]
            · have htail := ih (postRetry fetch st.current_fresh_only k resp).2.1
                ⟨st.current_fresh_only, updateNewest st.newest_graph resp⟩ (some r2)
              simp only [c8all, c8ok, c8step, Bool.true_and]
              rw [List.append_eq, c8all_append,
                c8all_of_no_emit _ _
                  (postRetry_emittedItems fetch st.current_fresh_only k resp),
                hpair]
              simp [c8all, c8ok, c8step, htail]

theorem postRetry_nextK_ge {G : Type} (fetch : Nat → Except Error (GraphResponse G))
    (flag : Bool) (k : Nat) (resp : GraphResponse G) :
    k + 1 ≤ (postRetry fetch flag k resp).2.1 := by
  unfold postRetry
  split
  · obtain ⟨m, h1, _, h3, _⟩ := overloadRetry_spec fetch flag overloadedDelays (k + 1) resp
    rw [h1]
    omega
  · simp

theorem runLoop_nextK_ge {G : Type} (fetch : Nat → Except Error (GraphResponse G))
    (a w : Bool) :
    ∀ (fuel k : Nat) (st : LoopState G), k ≤ (runLoop fetch a w fuel k st).nextK := by
  intro fuel
  induction fuel with
  | zero => intro k st; simp [runLoop]
  | succ fuel ih =>
    intro k st
    cases hf : fetch k with
    | error e =>
      simp only [runLoop, hf]
      omega
    | ok resp =>
      simp only [runLoop, hf]
      split
      · have := ih (k + 1) ⟨true, updateNewest st.newest_graph resp⟩
        simp only []
        omega
      · split
        · simp
        · have hpp := postRetry_nextK_ge fetch st.current_fresh_only k resp
          cases hr : (postRetry fetch st.current_fresh_only k resp).2.2 with
          | error e =>
            simp only [hr]
            omega
          | ok r2 =>
            simp only [hr]
            split
            · exact Nat.le_of_succ_le hpp
            · have := ih (postRetry fetch st.current_fresh_only k resp).2.1
                ⟨st.current_fresh_only, updateNewest st.newest_graph resp⟩
              exact le_trans (Nat.le_of_succ_le hpp) this

theorem runLoop_nextK_succ_ge {G : Type} (fetch : Nat → Except Error (GraphResponse G))
    (a w : Bool) (fuel k : Nat) (st : LoopState G) :
    k + 1 ≤ (runLoop fetch a w (fuel + 1) k st).nextK := by
  cases hf : fetch k with
  | error e =>
    simp only [runLoop, hf]
    omega
  | ok resp =>
    simp only [runLoop, hf]
    split
    · have := runLoop_nextK_ge fetch a w fuel (k + 1)
        ⟨true, updateNewest st.newest_graph resp⟩
      simp only []
      omega
    · split
      · simp
      · have hpp := postRetry_nextK_ge fetch st.current_fresh_only k resp
        cases hr : (postRetry fetch st.current_fresh_only k resp).2.2 with
        | error e =>
          simp only [hr]
          omega
        | ok r2 =>
          simp only [hr]
          split
          · exact hpp
          · have := runLoop_nextK_ge fetch a w fuel
              (postRetry fetch st.current_fresh_only k resp).2.1
              ⟨st.current_fresh_only, updateNewest st.newest_graph resp⟩
            exact le_trans hpp this

theorem overloadRetry_deterministic {G : Type}
    (f g : Nat → Except Error (GraphResponse G)) (fr : Bool) :
    ∀ (ds : List Nat) (k : Nat) (resp : GraphResponse G),
      (∀ i, k ≤ i → i < (overloadRetry f fr k resp ds).2.1 → f i = g i) →
      overloadRetry f fr k resp ds = overloadRetry g fr k resp ds := by
  intro ds
  induction ds with
  | nil => intro k resp h; rfl
  | cons d rest ih =>
    intro k resp h
    have hk : k < (overloadRetry f fr k resp (d :: rest)).2.1 := by
      obtain ⟨m, h1, _, h3, _⟩ := overloadRetry_spec f fr (d :: rest) k resp
      rw [h1]
      have := h3 (by simp)
      omega
    have hfg := h k le_rfl hk
    cases hf : f k with
    | error e =>
      have hg : g k = .error e := by rw [← hfg, hf]
      simp [overloadRetry, hf, hg]
    | ok newResp =>
      have hg : g k = .ok newResp := by rw [← hfg, hf]
      by_cases hov : newResp.status = GraphResponseType.Overloaded
      · have hsub : ∀ i, k + 1 ≤ i →
            i < (overloadRetry f fr (k + 1) newResp rest).2.1 → f i = g i := by
          intro i h1 h2
          have heq : (overloadRetry f fr k resp (d :: rest)).2.1 =
              (overloadRetry f fr (k + 1) newResp rest).2.1 := by
            simp [overloadRetry, hf, hov]
          exact h i (by omega) (by rw [heq]; exact h2)
        have htail := ih (k + 1) newResp hsub
        simp only [overloadRetry, hf, hg]
        rw [if_neg (by simp [hov]), if_neg (by simp [hov]), htail]
      · simp [overloadRetry, hf, hg, hov]

/-- C9: the items produced by a session are a function of the fetched results
actually consumed and the session arguments alone.  If two oracles agree on
every call index the `f`-session consumes (all indices below its final
`nextK`), the two sessions produce identical results — same trace of fetches,
sleeps and emitted items, in the same order. -/
theorem C9_deterministic {G : Type} (f g : Nat → Except Error (GraphResponse G))
    (a w : Bool) :
    ∀ (fuel k : Nat) (st : LoopState G) (N : Nat),
      (runLoop f a w fuel k st).nextK ≤ N →
      (∀ i, k ≤ i → i < N → f i = g i) →
      runLoop f a w fuel k st = runLoop g a w fuel k st := by
  intro fuel
  induction fuel with
  | zero => intro k st N hN h; rfl
  | succ fuel ih =>
    intro k st N hN h
    have hk : k < (runLoop f a w (fuel + 1) k st).nextK :=
      runLoop_nextK_succ_ge f a w fuel k st
    have hfg : f k = g k := h k le_rfl (lt_of_lt_of_le hk hN)
    cases hf : f k with
    | error e =>
      have hg : g k = .error e := by rw [← hfg, hf]
      simp [runLoop, hf, hg]
    | ok resp =>
      have hg : g k = .ok resp := by rw [← hfg, hf]
      by_cases hc1 : resp.status = GraphResponseType.OldGraph ∧ w = true ∧ a = false
      · have hnext : (runLoop f a w (fuel + 1) k st).nextK =
            (runLoop f a w fuel (k + 1)
              ⟨true, updateNewest st.newest_graph resp⟩).nextK := by
          simp [runLoop, hf, hc1]
        have htail := ih (k + 1) ⟨true, updateNewest st.newest_graph resp⟩ N
          (by rw [← hnext]; exact hN) (fun i h1 h2 => h i (by omega) h2)
        simp only [runLoop, hf, hg]
        rw [if_pos hc1, if_pos hc1, htail]
      · by_cases hc2 : resp.status = GraphResponseType.OldGraph ∧ a = false
        · simp only [runLoop, hf, hg]
          rw [if_neg hc1, if_neg hc1, if_pos hc2, if_pos hc2]
        · have hle : (postRetry f st.current_fresh_only k resp).2.1 ≤
              (runLoop f a w (fuel + 1) k st).nextK := by
            simp only [runLoop, hf]
            rw [if_neg hc1, if_neg hc2]
            split
            · exact le_refl _
            · split
              · exact le_refl _
              · exact runLoop_nextK_ge f a w fuel
                  (postRetry f st.current_fresh_only k resp).2.1
                  ⟨st.current_fresh_only, updateNewest st.newest_graph resp⟩
          have hpr : postRetry f st.current_fresh_only k resp =
              postRetry g st.current_fresh_only k resp := by
            unfold postRetry
            by_cases hov : resp.status = GraphResponseType.Overloaded
            · rw [if_pos hov, if_pos hov]
              apply overloadRetry_deterministic
              intro i h1 h2
              refine h i (by omega) ?_
              have heq : (overloadRetry f st.current_fresh_only (k + 1) resp
                  overloadedDelays).2.1 =
                  (postRetry f st.current_fresh_only k resp).2.1 := by
                simp [postRetry, hov]
              omega
            · rw [if_neg hov, if_neg hov]
          cases hr : (postRetry f st.current_fresh_only k resp).2.2 with
          | error e =>
            simp only [runLoop, hf, hg]
            rw [if_neg hc1, if_neg hc1, if_neg hc2, if_neg hc2, ← hpr]
            simp only [hr]
          | ok r2 =>
            by_cases hc3 : w = false ∨ isTerminalStatus r2.status = true
            · simp only [runLoop, hf, hg]
              rw [if_neg hc1, if_neg hc1, if_neg hc2, if_neg hc2, ← hpr]
              simp only [hr]
              rw [if_pos hc3, if_pos hc3]
            · have hnext : (runLoop f a w (fuel + 1) k st).nextK =
                  (runLoop f a w fuel (postRetry f st.current_fresh_only k resp).2.1
                    ⟨st.current_fresh_only, updateNewest st.newest_graph resp⟩).nextK := by
                simp only [runLoop, hf]
                rw [if_neg hc1, if_neg hc2]
                simp only [hr]
                rw [if_neg hc3]
              have hkk : k ≤ (postRetry f st.current_fresh_only k resp).2.1 :=
                Nat.le_of_succ_le (postRetry_nextK_ge f st.current_fresh_only k resp)
              have htail := ih (postRetry f st.current_fresh_only k resp).2.1
                ⟨st.current_fresh_only, updateNewest st.newest_graph resp⟩ N
                (by rw [← hnext]; exact hN)
                (fun i h1 h2 => h i (by omega) h2)
              simp only [runLoop, hf, hg]
              rw [if_neg hc1, if_neg hc1, if_neg hc2, if_neg hc2, ← hpr]
              simp only [hr]
              rw [if_neg hc3, if_neg hc3, htail]

/-- Oracle answering `Queued` then terminal graphs. -/
def fetchDivergeA : Nat → Except Error (GraphResponse Nat)
  | 0 => .ok ⟨.Queued, none, none, none⟩
  | _ => .ok ⟨.FreshGraph, some 1, none, none⟩

/-- Oracle agreeing with `fetchDivergeA` on index 0 only. -/
def fetchDivergeB : Nat → Except Error (GraphResponse Nat)
  | 0 => .ok ⟨.Queued, none, none, none⟩
  | _ => .error (.ReqwestError "different tail")

theorem C9_witness :
    runLoop fetchDivergeA false false 1 0 (⟨false, none⟩ : LoopState Nat) =
      runLoop fetchDivergeB false false 1 0 (⟨false, none⟩ : LoopState Nat) :=
  C9_deterministic fetchDivergeA fetchDivergeB false false 1 0 ⟨false, none⟩ 1
    (by decide)
    (fun i _ h2 => by
      have hi : i = 0 := by omega
      subst hi
      rfl)

/-- A serde_json number: a non-negative integer representable as `u64`, a
negative integer, or a finite double (carried opaquely). -/
inductive JNumber where
  | posInt (n : Nat)
  | negInt (n : Int)
  | float (q : Rat)

/-- A serde_json `Value`. -/
inductive Json where
  | null
  | bool (b : Bool)
  | number (n : JNumber)
  | str (s : String)
  | arr (items : List Json)
  | obj (fields : List (String × Json))

/-- `body["remaining"]`: serde_json string indexing — the value stored under the
key in an object, `Null` for a missing key or for a non-object. -/
def Json.index (j : Json) (key : String) : Json :=
  match j with
  | .obj fields =>
    match fields.find? (fun p => p.1 == key) with
    | some p => p.2
    | none => .null
  | _ => .null

/-- `Value::as_u64`: `Some` exactly for numbers stored as non-negative
integers. -/
def Json.as_u64 : Json → Option Nat
  | .number (.posInt n) => some n
  | _ => none

/-- One HTTP exchange as observed by `get_remaining_usages`: response status
code, raw body text, and the JSON parse of the body (`none` when
`resp.json::<serde_json::Value>()` fails). -/
structure HttpExchange where
  status : Nat
  text : String
  parsed : Option Json

/-- `ConnectedPapers::get_remaining_usages` (`client.rs`): on HTTP 200 parse the
body as JSON and return `body["remaining"].as_u64().unwrap_or(0)`; a body that
fails to parse propagates the reqwest decode error; any non-200 status returns
`Error::RequestFailed` with the body text. -/
def get_remaining_usages (resp : HttpExchange) : Except Error Nat :=
  if resp.status = 200 then
    match resp.parsed with
    | some body => .ok ((Json.index body "remaining").as_u64.getD 0)
    | none => .error (.ReqwestError "error decoding response body")
  else
    .error (.RequestFailed resp.text)

/-- C10: with an HTTP 200 response whose parsed body lacks a `remaining` field,
or whose `remaining` field is not a non-negative integer (`as_u64` is `none`,
e.g. for a missing key, a negative number, a float, a string, ...),
`get_remaining_usages` returns `Ok 0` rather than an error; it returns an
error exactly when the status is not 200 or the body is not parseable JSON. -/
theorem C10_remaining_defaults (resp : HttpExchange) :
    (∀ body, resp.status = 200 → resp.parsed = some body →
      (Json.index body "remaining").as_u64 = none →
      get_remaining_usages resp = .ok 0) ∧
    (∀ body fields, resp.status = 200 → resp.parsed = some body →
      body = Json.obj fields → (∀ p ∈ fields, ¬p.1 = "remaining") →
      get_remaining_usages resp = .ok 0) ∧
    ((∃ e, get_remaining_usages resp = .error e) ↔
      (¬resp.status = 200 ∨ resp.parsed = none)) := by
  refine ⟨?_, ?_, ?_⟩
  · intro body h200 hp hnone
    simp [get_remaining_usages, h200, hp, hnone]
  · intro body fields h200 hp hobj hmiss
    have hfind : fields.find? (fun p => p.1 == "remaining") = none := by
      rw [List.find?_eq_none]
      intro p hpmem
      simpa using hmiss p hpmem
    have hidx : Json.index body "remaining" = Json.null := by
      rw [hobj]
      simp [Json.index, hfind]
    simp [get_remaining_usages, h200, hp, hidx, Json.as_u64]
  · constructor
    · rintro ⟨e, he⟩
      by_cases h200 : resp.status = 200
      · cases hp : resp.parsed with
        | none => exact Or.inr rfl
        | some body =>
          rw [show get_remaining_usages resp =
            .ok ((Json.index body "remaining").as_u64.getD 0) from by
              simp [get_remaining_usages, h200, hp]] at he
          cases he
      · exact Or.inl h200
    · rintro (h200 | hp)
      · exact ⟨.RequestFailed resp.text, by simp [get_remaining_usages, h200]⟩
      · by_cases h200 : resp.status = 200
        · exact ⟨.ReqwestError "error decoding response body",
            by simp [get_remaining_usages, h200, hp]⟩
        · exact ⟨.RequestFailed resp.text, by simp [get_remaining_usages, h200]⟩

theorem C10_witness :
    get_remaining_usages ⟨200, "", some (Json.obj [("papers", Json.null)])⟩ = .ok 0 :=
  (C10_remaining_defaults ⟨200, "", some (Json.obj [("papers", Json.null)])⟩).1
    (Json.obj [("papers", Json.null)]) rfl rfl rfl

end ConnectedPapers
